import Mathlib

/-!
Verification development for the mcp-figma-demo repository.

The definitions below are shallow embeddings of the TypeScript sources:
  * `src/core/url-parser.ts`   — `parseFileKey`, `parseNodeId`, `normalizeNodeId`
  * `src/client/cache.ts`      — `CacheManager.generateKey` / `get` / `set`
  * `src/client/figma-api.ts`  — `FigmaApiClient.fetchWithRetry`, `downloadImage`
  * `src/cli/index.ts`         — `buildNodeHierarchy`, `FigmaMCPServer.sanitizeFileName`
  * `src/core/image-exporter.ts` — `ImageExporter.exportImages`, `generateFileName`,
    `sanitizeFileName`, `stripExtension`

Strings are modelled as Lean `String`/`List Char` (the inputs of interest are
Unicode BMP text, where JavaScript's UTF-16 code-unit view agrees with the
code-point view).  JavaScript numbers that hold design coordinates are
modelled as `ℚ` (the examples only involve exactly representable values),
`Math.round` as Mathlib's `round` (both round half toward positive
infinity).  Millisecond clocks are `Int`.  The file system used by the cache
and the HTTP responses seen by the client are passed explicitly as
functions / lists, turning each method into a pure function.
-/

/-! ## Basic character/list helpers shared by several embeddings -/

/-- `[a-zA-Z0-9]` — the character class of the file-key regexes. -/
def isAlnum (c : Char) : Bool := c.isAlpha || c.isDigit

/-- Consume an exact literal from the front of a character list:
`dropLit pat l = some r` iff `l = pat ++ r`.  This is how the regex
engine matches a literal run of characters at a fixed position. -/
def dropLit : List Char → List Char → Option (List Char)
  | [], l => some l
  | _ :: _, [] => none
  | c :: cs, x :: xs => if x = c then dropLit cs xs else none

/-! ## `src/core/url-parser.ts` -/

/-- The capture group `([a-zA-Z0-9]+)`: a greedy, non-empty run of
alphanumeric characters. -/
def capAlnum (u : List Char) : Option (List Char) :=
  let run := u.takeWhile isAlnum
  if run.isEmpty then none else some run

/-- One attempt of the first pattern
`figma\.com\/(?:file|design)\/([a-zA-Z0-9]+)` at a fixed start position:
literal `figma.com/`, then `file/` or `design/` (tried in that order, as the
regex alternation does), then the captured alphanumeric run. -/
def fileDesignAt (l : List Char) : Option (List Char) :=
  (dropLit "figma.com/".data l).bind fun t =>
    ((dropLit "file/".data t).bind capAlnum).orElse fun _ =>
      (dropLit "design/".data t).bind capAlnum

/-- One attempt of the second pattern `figma\.com\/proto\/([a-zA-Z0-9]+)`
at a fixed start position. -/
def protoAt (l : List Char) : Option (List Char) :=
  (dropLit "figma.com/proto/".data l).bind capAlnum

/-- `url.match(pattern)`: try the pattern at every position, left to right,
and return the first capture.  (Leftmost-match semantics of `String.match`.) -/
def scanFor (pAt : List Char → Option (List Char)) : List Char → Option (List Char)
  | [] => pAt []
  | l@(_ :: rest) =>
      match pAt l with
      | some r => some r
      | none => scanFor pAt rest

/-- `parseFileKey` from `src/core/url-parser.ts` (the spec's `parseFileId`):
try the `file|design` pattern over the whole string, then the `proto`
pattern; on failure throw `Invalid Figma URL: <url>` (the spec's
`InvalidUrlError`). -/
def parseFileKey (url : String) : Except String String :=
  match scanFor fileDesignAt url.data with
  | some cap => Except.ok (String.mk cap)
  | none =>
      match scanFor protoAt url.data with
      | some cap => Except.ok (String.mk cap)
      | none => Except.error ("Invalid Figma URL: " ++ url)

/-- `normalizeNodeId` from `src/core/url-parser.ts`:
`nodeId.replace(/^(\d+)-(\d+)/, '$1:$2')`.  The regex is anchored at the
start of the string: a non-empty leading digit run, a hyphen, and a
non-empty digit run; on a match the hyphen becomes a colon and the rest of
the string is kept; otherwise the input is returned unchanged. -/
def normalizeNodeId (nodeId : String) : String :=
  let l := nodeId.data
  let d1 := l.takeWhile Char.isDigit
  let r1 := l.dropWhile Char.isDigit
  match d1, r1 with
  | _ :: _, c :: r2 =>
      if c = '-' then
        if (r2.takeWhile Char.isDigit).isEmpty then nodeId
        else String.mk (d1 ++ ':' :: r2)
      else nodeId
  | _, _ => nodeId

/-! ## `src/client/figma-api.ts` — `fetchWithRetry` and `downloadImage`

An HTTP attempt either yields a response (status plus optional
`Retry-After` header, already parsed to a number) or throws a transport
error.  The sequence of attempt outcomes the network would produce is the
explicit input; the function returns the outcome together with the list of
sleep durations (ms, in order) and the number of requests issued. -/

structure HttpResponse where
  status : Nat
  retryAfter : Option Nat
deriving DecidableEq

inductive AttemptResult where
  | resp (r : HttpResponse)
  | netError (msg : String)
deriving DecidableEq

/-- `retryAfter ? Number.parseInt(retryAfter, 10) * 1000 : retryDelay`. -/
def waitFor (retryDelay : Nat) : Option Nat → Nat
  | some s => s * 1000
  | none => retryDelay

/-- The loop body of `FigmaApiClient.fetchWithRetry`, with `n + 1` attempts
remaining.  On a 429 response: sleep the computed wait time and continue.
On any other response: return it.  On a thrown fetch error: remember it and,
unless this was the final attempt, sleep `retryDelay`.  When attempts are
exhausted the recorded last error (or `Max retries exceeded`) is thrown.
Result: (outcome, sleeps performed, requests made). -/
def fetchGo (retryDelay : Nat) :
    List AttemptResult → Nat → Option String →
      Except String HttpResponse × List Nat × Nat
  | _, 0, lastError => (Except.error (lastError.getD "Max retries exceeded"), [], 0)
  | [], _ + 1, lastError => (Except.error (lastError.getD "Max retries exceeded"), [], 0)
  | AttemptResult.resp r :: restA, n + 1, lastError =>
      if r.status = 429 then
        let out := fetchGo retryDelay restA n lastError
        (out.1, waitFor retryDelay r.retryAfter :: out.2.1, out.2.2 + 1)
      else
        (Except.ok r, [], 1)
  | AttemptResult.netError e :: restA, n + 1, _ =>
      let out := fetchGo retryDelay restA n (some e)
      if n = 0 then (out.1, out.2.1, out.2.2 + 1)
      else (out.1, retryDelay :: out.2.1, out.2.2 + 1)

/-- `FigmaApiClient.fetchWithRetry(url, maxRetries = 3, retryDelay = 1000)`. -/
def fetchWithRetry (attempts : List AttemptResult) (maxRetries retryDelay : Nat) :
    Except String HttpResponse × List Nat × Nat :=
  fetchGo retryDelay attempts maxRetries none

/-- The response a `fetch(url)` for a pre-signed image URL yields:
status, status text, and body bytes. -/
structure DLResponse where
  status : Nat
  statusText : String
  bytes : List Nat
deriving DecidableEq

/-- `Response.ok`: status in the range 200–299. -/
def respOk (r : DLResponse) : Bool := 200 ≤ r.status && r.status < 300

/-- `FigmaApiClient.downloadImage(url)`: plain GET of the pre-signed URL
(`fetchEnv` is the network, mapping a URL to its response); throws
`Failed to download image: <status> <statusText>` on a non-ok status
(the spec's `DownloadError`), otherwise returns the body bytes. -/
def downloadImage (fetchEnv : String → DLResponse) (url : String) :
    Except String (List Nat) :=
  let r := fetchEnv url
  if respOk r then Except.ok r.bytes
  else Except.error ("Failed to download image: " ++ toString r.status ++ " " ++ r.statusText)

/-! ## File-name sanitization (`ImageExporter.generateFileName`,
`sanitizeFileName`, `stripExtension` in `src/core/image-exporter.ts`;
`FigmaMCPServer` carries a verbatim copy of the latter two).

`sanitizeFileName` is the chain
`.replace(/[<>:"\/\\|?*]/g,'_').replace(/\s+/g,'_').replace(/_{2,}/g,'_')
 .replace(/^_|_$/g,'').toLowerCase().substring(0, 50)`. -/

/-- The character class `[<>:"/\\|?*]` of invalid file-name characters. -/
def invalidChar (c : Char) : Bool :=
  c = '<' || c = '>' || c = ':' || c = '"' || c = '/' || c = '\\' ||
  c = '|' || c = '?' || c = '*'

/-- `.replace(/[<>:"\/\\|?*]/g, '_')` — every invalid character becomes `_`. -/
def replaceInvalid (l : List Char) : List Char :=
  l.map fun c => if invalidChar c then '_' else c

/-- `.replace(/\s+/g, '_')` — every maximal whitespace run becomes one `_`:
inside a run every character but the last is dropped, the last becomes `_`.
(ASCII fragment of the JavaScript `\s` class.) -/
def wsToUnderscore : List Char → List Char
  | [] => []
  | [c] => if c.isWhitespace then ['_'] else [c]
  | c1 :: c2 :: rest =>
      if c1.isWhitespace && c2.isWhitespace then wsToUnderscore (c2 :: rest)
      else (if c1.isWhitespace then '_' else c1) :: wsToUnderscore (c2 :: rest)

/-- `.replace(/_{2,}/g, '_')` — every maximal underscore run becomes one `_`. -/
def collapseUnderscores : List Char → List Char
  | [] => []
  | [c] => [c]
  | c1 :: c2 :: rest =>
      if c1 = '_' && c2 = '_' then collapseUnderscores (c2 :: rest)
      else c1 :: collapseUnderscores (c2 :: rest)

/-- The `^_` half of `.replace(/^_|_$/g, '')`: one leading underscore. -/
def stripLeadingUnderscore : List Char → List Char
  | [] => []
  | c :: rest => if c = '_' then rest else c :: rest

/-- The `_$` half of `.replace(/^_|_$/g, '')`: one trailing underscore. -/
def stripTrailingUnderscore : List Char → List Char
  | [] => []
  | [c] => if c = '_' then [] else [c]
  | c1 :: c2 :: rest => c1 :: stripTrailingUnderscore (c2 :: rest)

/-- `.replace(/^_|_$/g, '')`. -/
def stripEdgeUnderscores (l : List Char) : List Char :=
  stripTrailingUnderscore (stripLeadingUnderscore l)

/-- The twenty-six ASCII case pairs of `String.prototype.toLowerCase`. -/
def lowerTable : List (Char × Char) :=
  [('A', 'a'), ('B', 'b'), ('C', 'c'), ('D', 'd'), ('E', 'e'), ('F', 'f'),
   ('G', 'g'), ('H', 'h'), ('I', 'i'), ('J', 'j'), ('K', 'k'), ('L', 'l'),
   ('M', 'm'), ('N', 'n'), ('O', 'o'), ('P', 'p'), ('Q', 'q'), ('R', 'r'),
   ('S', 's'), ('T', 't'), ('U', 'u'), ('V', 'v'), ('W', 'w'), ('X', 'x'),
   ('Y', 'y'), ('Z', 'z')]

/-- ASCII fragment of `String.prototype.toLowerCase`: look the character up
in the case table, keep it unchanged when it is not an uppercase letter. -/
def asciiToLower (c : Char) : Char :=
  ((lowerTable.find? fun p => p.1 = c).map Prod.snd).getD c

/-- The uppercase ASCII letters (for stating "lowercased"). -/
def upperChars : List Char :=
  ['A', 'B', 'C', 'D', 'E', 'F', 'G', 'H', 'I', 'J', 'K', 'L', 'M',
   'N', 'O', 'P', 'Q', 'R', 'S', 'T', 'U', 'V', 'W', 'X', 'Y', 'Z']

/-- `ImageExporter.sanitizeFileName` (and its verbatim copy in
`FigmaMCPServer`): invalid characters to `_`, whitespace runs to `_`,
underscore runs collapsed, one leading and one trailing underscore
stripped, lowercased, then truncated to 50 characters — in that order. -/
def sanitizeFileName (name : String) : String :=
  String.mk
    (((stripEdgeUnderscores
        (collapseUnderscores (wsToUnderscore (replaceInvalid name.data)))).map
      asciiToLower).take 50)

/-- `nodeId.replace(/:/g, '-')`. -/
def colonToHyphen (s : String) : String :=
  String.mk (s.data.map fun c => if c = ':' then '-' else c)

/-- `ImageExporter.generateFileName`:
`{fileKey}_{nodeId with ':' -> '-'}_{sanitized name}.{format}`. -/
def generateFileName (fileKey nodeId nodeName format : String) : String :=
  fileKey ++ "_" ++ colonToHyphen nodeId ++ "_" ++ sanitizeFileName nodeName ++ "." ++ format

/-- `ImageExporter.stripExtension`: `fileName.replace(/\.[^.]+$/, '')` —
drop a final dot followed by one or more non-dot characters, if present. -/
def stripExtension (s : String) : String :=
  let r := s.data.reverse
  let ext := r.takeWhile (· ≠ '.')
  match r.dropWhile (· ≠ '.') with
  | '.' :: more => if ext.isEmpty then s else String.mk more.reverse
  | _ => s

/-! ## SHA-256 (the `createHash('sha256')...digest('hex')` of `node:crypto`)

A direct functional transcription of FIPS 180-4 over `Nat`, with 32-bit
words kept below `2 ^ 32` by explicit reduction.  Only used through
`sha256hex` by the cache key. -/

/-- 32-bit word modulus. -/
def w32 : Nat := 4294967296

/-- Rotate a 32-bit word right by `n`. -/
def rotr (n x : Nat) : Nat := ((x >>> n) ||| (x <<< (32 - n))) % w32

/-- 32-bit bitwise complement. -/
def not32 (x : Nat) : Nat := 4294967295 ^^^ x

def sigma0 (x : Nat) : Nat := rotr 7 x ^^^ rotr 18 x ^^^ (x >>> 3)

def sigma1 (x : Nat) : Nat := rotr 17 x ^^^ rotr 19 x ^^^ (x >>> 10)

def bigSigma0 (x : Nat) : Nat := rotr 2 x ^^^ rotr 13 x ^^^ rotr 22 x

def bigSigma1 (x : Nat) : Nat := rotr 6 x ^^^ rotr 11 x ^^^ rotr 25 x

def chFn (x y z : Nat) : Nat := (x &&& y) ^^^ (not32 x &&& z)

def majFn (x y z : Nat) : Nat := (x &&& y) ^^^ (x &&& z) ^^^ (y &&& z)

/-- The 64 SHA-256 round constants. -/
def sha256K : List Nat :=
  [1116352408, 1899447441, 3049323471, 3921009573, 961987163, 1508970993,
   2453635748, 2870763221, 3624381080, 310598401, 607225278, 1426881987,
   1925078388, 2162078206, 2614888103, 3248222580, 3835390401, 4022224774,
   264347078, 604807628, 770255983, 1249150122, 1555081692, 1996064986,
   2554220882, 2821834349, 2952996808, 3210313671, 3336571891, 3584528711,
   113926993, 338241895, 666307205, 773529912, 1294757372, 1396182291,
   1695183700, 1986661051, 2177026350, 2456956037, 2730485921, 2820302411,
   3259730800, 3345764771, 3516065817, 3600352804, 4094571909, 275423344,
   430227734, 506948616, 659060556, 883997877, 958139571, 1322822218,
   1537002063, 1747873779, 1955562222, 2024104815, 2227730452, 2361852424,
   2428436474, 2756734187, 3204031479, 3329325298]

/-- Big-endian byte expansion of `v` into `n` bytes. -/
def toBytesBE (n v : Nat) : List Nat :=
  (List.range n).map fun i => (v >>> (8 * (n - 1 - i))) % 256

/-- SHA-256 padding: append `0x80`, zero bytes, and the 64-bit big-endian
bit length, to a multiple of 64 bytes. -/
def sha256Pad (msg : List Nat) : List Nat :=
  let len := msg.length
  let zeros := (64 - (len + 9) % 64) % 64
  msg ++ 0x80 :: List.replicate zeros 0 ++ toBytesBE 8 (len * 8)

/-- Split a byte list into 64-byte blocks. -/
def toBlocks : List Nat → List (List Nat)
  | [] => []
  | l@(_ :: _) => l.take 64 :: toBlocks (l.drop 64)
termination_by l => l.length
decreasing_by simp_all [List.length_drop]; omega

/-- The 16 initial 32-bit words of one 64-byte block (big-endian). -/
def blockWords (block : List Nat) : List Nat :=
  (List.range 16).map fun i =>
    block.getD (4 * i) 0 * 16777216 + block.getD (4 * i + 1) 0 * 65536 +
    block.getD (4 * i + 2) 0 * 256 + block.getD (4 * i + 3) 0

/-- Extend the 16 block words to the 64-entry message schedule. -/
def schedule (ws : List Nat) : List Nat :=
  (List.range 48).foldl
    (fun acc j =>
      let i := j + 16
      acc ++ [(sigma1 (acc.getD (i - 2) 0) + acc.getD (i - 7) 0 +
               sigma0 (acc.getD (i - 15) 0) + acc.getD (i - 16) 0) % w32])
    ws

/-- The eight 32-bit hash state words. -/
structure Hash8 where
  a : Nat
  b : Nat
  c : Nat
  d : Nat
  e : Nat
  f : Nat
  g : Nat
  h : Nat

/-- One round of the SHA-256 compression function. -/
def compressStep (st : Hash8) (kw : Nat × Nat) : Hash8 :=
  let t1 := (st.h + bigSigma1 st.e + chFn st.e st.f st.g + kw.1 + kw.2) % w32
  let t2 := (bigSigma0 st.a + majFn st.a st.b st.c) % w32
  ⟨(t1 + t2) % w32, st.a, st.b, st.c, (st.d + t1) % w32, st.e, st.f, st.g⟩

/-- Process one 64-byte block. -/
def processBlock (hv : Hash8) (block : List Nat) : Hash8 :=
  let st := (sha256K.zip (schedule (blockWords block))).foldl compressStep hv
  ⟨(hv.a + st.a) % w32, (hv.b + st.b) % w32, (hv.c + st.c) % w32,
   (hv.d + st.d) % w32, (hv.e + st.e) % w32, (hv.f + st.f) % w32,
   (hv.g + st.g) % w32, (hv.h + st.h) % w32⟩

/-- SHA-256 initial hash value. -/
def sha256H0 : Hash8 :=
  ⟨1779033703, 3144134277, 1013904242, 2773480762,
   1359893119, 2600822924, 528734635, 1541459225⟩

/-- SHA-256 digest (32 bytes) of a byte list. -/
def sha256Bytes (msg : List Nat) : List Nat :=
  let hv := (toBlocks (sha256Pad msg)).foldl processBlock sha256H0
  toBytesBE 4 hv.a ++ toBytesBE 4 hv.b ++ toBytesBE 4 hv.c ++ toBytesBE 4 hv.d ++
  toBytesBE 4 hv.e ++ toBytesBE 4 hv.f ++ toBytesBE 4 hv.g ++ toBytesBE 4 hv.h

/-- Lowercase hexadecimal digit. -/
def hexDigit (n : Nat) : Char := if n < 10 then Char.ofNat (48 + n) else Char.ofNat (87 + n)

/-- Lowercase hexadecimal rendering of a byte list (`digest('hex')`). -/
def toHex (bytes : List Nat) : String :=
  String.mk (bytes.foldr (fun b acc => hexDigit (b / 16) :: hexDigit (b % 16) :: acc) [])

/-- `createHash('sha256').update(s).digest('hex')` for a UTF-8 string. -/
def sha256hex (s : String) : String :=
  toHex (sha256Bytes (s.toUTF8.toList.map UInt8.toNat))

/-! ## `src/client/cache.ts` — `CacheManager` -/

/-- `[...nodeIds].sort()` — JavaScript's default sort compares elements as
strings; on (BMP) strings this is the lexicographic order of `String`. -/
def jsSort (nodeIds : List String) : List String :=
  List.insertionSort (· ≤ ·) nodeIds

/-- `CacheManager.generateKey`: sha-256 hex digest of
`` `${fileKey}:${sortedIds.join(',')}` ``. -/
def CacheManager.generateKey (fileKey : String) (nodeIds : List String) : String :=
  sha256hex (fileKey ++ ":" ++ String.intercalate "," (jsSort nodeIds))

/-- What a read of one cache file can observe: a record that parses to a
`CachedNodeResponse`, or bytes `JSON.parse` rejects. -/
inductive CacheFile (α : Type) where
  | valid (record : α)
  | corrupt
deriving DecidableEq

/-- `CacheMetadata` from `src/client/types.ts`. -/
structure CacheMetadata where
  fileKey : String
  nodeIds : List String
  timestamp : Int
  ttl : Int
deriving DecidableEq

/-- `CachedNodeResponse` from `src/client/types.ts`, generic in the payload
type (the client instantiates it with `GetNodesResponse`). -/
structure CachedNodeResponse (α : Type) where
  metadata : CacheMetadata
  data : α
deriving DecidableEq

/-- The cache directory contents: path to file (or nothing). -/
def CacheFS (α : Type) : Type := String → Option (CacheFile (CachedNodeResponse α))

/-- The path `join(this.cacheDir, `${key}.json`)`. -/
def cachePathOf (cacheDir fileKey : String) (nodeIds : List String) : String :=
  cacheDir ++ "/" ++ CacheManager.generateKey fileKey nodeIds ++ ".json"

/-- `CacheManager.get`: absent file, unparseable record, or
`now - timestamp > ttl` all yield `none`; otherwise the cached `data`. -/
def CacheManager.get {α : Type} (cacheDir : String) (now : Int) (fs : CacheFS α)
    (fileKey : String) (nodeIds : List String) : Option α :=
  match fs (cachePathOf cacheDir fileKey nodeIds) with
  | none => none
  | some CacheFile.corrupt => none
  | some (CacheFile.valid cached) =>
      if now - cached.metadata.timestamp > cached.metadata.ttl then none
      else some cached.data

/-- `CacheManager.set`: write `{metadata: {fileKey, nodeIds, timestamp: now,
ttl}, data}` under the deterministic key, overwriting any prior record. -/
def CacheManager.set {α : Type} (cacheDir : String) (ttl now : Int) (fs : CacheFS α)
    (fileKey : String) (nodeIds : List String) (data : α) : CacheFS α :=
  fun p =>
    if p = cachePathOf cacheDir fileKey nodeIds then
      some (CacheFile.valid ⟨⟨fileKey, nodeIds, now, ttl⟩, data⟩)
    else fs p

/-! ## Node trees (`src/client/types.ts`) and `buildNodeHierarchy`
(`src/cli/index.ts`) -/

/-- `AbsoluteBoundingBox` from `src/client/types.ts`. -/
structure BBox where
  x : ℚ
  y : ℚ
  width : ℚ
  height : ℚ

/-- `Node` from `src/client/types.ts` (the open-ended `[key: string]:
unknown` passthrough fields are opaque and not modelled). -/
inductive Node where
  | mk (id name type_ : String) (visible : Option Bool)
      (absoluteBoundingBox : Option BBox) (children : Option (List Node))

def Node.id : Node → String
  | Node.mk i _ _ _ _ _ => i

def Node.name : Node → String
  | Node.mk _ n _ _ _ _ => n

def Node.type_ : Node → String
  | Node.mk _ _ t _ _ _ => t

def Node.visible : Node → Option Bool
  | Node.mk _ _ _ v _ _ => v

def Node.absoluteBoundingBox : Node → Option BBox
  | Node.mk _ _ _ _ bb _ => bb

def Node.children : Node → Option (List Node)
  | Node.mk _ _ _ _ _ ch => ch

/-- The `bounds` field of a `NodeInfo` (integers after `Math.round`). -/
structure BoundsInfo where
  x : Int
  y : Int
  width : Int
  height : Int
deriving DecidableEq

/-- `NodeInfo` from `src/cli/index.ts`; `children = none` means the field
is absent from the emitted object. -/
structure NodeInfo where
  id : String
  name : String
  type_ : String
  visible : Option Bool
  bounds : Option BoundsInfo
  children : Option (List NodeInfo)

/-- The bounds computation of `buildNodeHierarchy`: coordinates translated
by `origin` and passed through `Math.round`. -/
def boundsFrom (origin : ℚ × ℚ) (bb : BBox) : BoundsInfo :=
  ⟨round (bb.x - origin.1), round (bb.y - origin.2), round bb.width, round bb.height⟩

/-- `buildNodeHierarchy(node, origin, depth, maxDepth, includeChildren)`
from `src/cli/index.ts`: emit id/name/type/visible, add `bounds` when the
node carries a bounding box, and recurse into children (passing `origin`
through unchanged and `depth + 1`) only when `includeChildren` holds, the
children list exists and is non-empty, and `depth < maxDepth`. -/
def buildNodeHierarchy : Node → ℚ × ℚ → Nat → Nat → Bool → NodeInfo
  | Node.mk i n t v bb ch, origin, depth, maxDepth, includeChildren =>
      { id := i, name := n, type_ := t, visible := v,
        bounds := bb.map (boundsFrom origin),
        children :=
          match ch with
          | some cs =>
              if includeChildren ∧ 0 < cs.length ∧ depth < maxDepth then
                some (cs.attach.map fun c =>
                  buildNodeHierarchy c.1 origin (depth + 1) maxDepth includeChildren)
              else none
          | none => none }
decreasing_by
  have h1 := List.sizeOf_lt_of_mem c.2
  simp only [Node.mk.sizeOf_spec, Option.some.sizeOf_spec]
  omega

/-- The origin rule of `FigmaMCPServer.handleGetNodeInfo` (and of the
verbose path of `ImageExporter.exportImages`): the root node's own
bounding-box position, or `(0, 0)` when the root has no box. -/
def rootOrigin (rootNode : Node) : ℚ × ℚ :=
  match rootNode.absoluteBoundingBox with
  | some bb => (bb.x, bb.y)
  | none => (0, 0)

/-! ## `ImageExporter.exportImages` (`src/core/image-exporter.ts`)

The per-node download/save loop (lines 82–124).  Its environment —
the image-URL map returned by `getImageUrls`, the node map of the
`getNodes` response, and the network serving the pre-signed URLs — is
explicit.  The observable actions are recorded as a list of events; a
thrown error aborts the loop and is returned as `Except.error`. -/

/-- `NodeData` from `src/client/types.ts` (`components`, `componentSets`
and `styles` catalogs are opaque passthrough and not modelled). -/
structure NodeData where
  document : Node
  schemaVersion : Int

/-- `GetNodesResponse` from `src/client/types.ts`; `nodes` is the
`Record<string, NodeData>` as an association list. -/
structure GetNodesResponse where
  name : String
  lastModified : String
  thumbnailUrl : String
  nodes : List (String × NodeData)
  err : Option String

/-- One observable step of the export loop. -/
inductive ExportEvent where
  | warnNoUrl (nodeId : String)
  | warnNoData (nodeId : String)
  | savedImage (fileName : String) (bytes : List Nat)
  | savedMetadata (fileName : String)

/-- The `for (const nodeId of nodeIds)` loop of
`ImageExporter.exportImages`: a missing image URL or missing node data is
logged and skipped (`continue`); otherwise the image is downloaded — an
error thrown by `downloadImage` propagates out of the loop — the image is
saved, and the metadata file is saved when `withMetadata` is set. -/
def exportLoop (fileKey format : String) (withMetadata : Bool)
    (imageUrls : String → Option String) (nodeMap : String → Option NodeData)
    (fetchEnv : String → DLResponse) : List String → Except String (List ExportEvent)
  | [] => Except.ok []
  | nodeId :: rest =>
      match imageUrls nodeId with
      | none =>
          (exportLoop fileKey format withMetadata imageUrls nodeMap fetchEnv rest).map
            (ExportEvent.warnNoUrl nodeId :: ·)
      | some imageUrl =>
          match nodeMap nodeId with
          | none =>
              (exportLoop fileKey format withMetadata imageUrls nodeMap fetchEnv rest).map
                (ExportEvent.warnNoData nodeId :: ·)
          | some nodeData =>
              let fileName := generateFileName fileKey nodeId nodeData.document.name format
              match downloadImage fetchEnv imageUrl with
              | Except.error e => Except.error e
              | Except.ok bytes =>
                  (exportLoop fileKey format withMetadata imageUrls nodeMap fetchEnv rest).map
                    fun evs =>
                      ExportEvent.savedImage fileName bytes ::
                        (if withMetadata then
                          ExportEvent.savedMetadata (stripExtension fileName ++ ".json") :: evs
                        else evs)

/-! ## Concrete fixtures used by witnesses and counterexamples -/

/-- A minimal `GetNodesResponse` payload. -/
def sampleResponse : GetNodesResponse := ⟨"Doc", "2025-01-01T00:00:00Z", "thumb", [], none⟩

/-- An empty cache directory. -/
def emptyFS : CacheFS GetNodesResponse := fun _ => none

/-- A cache directory whose every file is unparseable. -/
def corruptFS : CacheFS GetNodesResponse := fun _ => some CacheFile.corrupt

/-- The child node of the spec's hierarchy-bounds example. -/
def childNode : Node := Node.mk "1:3" "Child" "RECTANGLE" none (some ⟨110, 210, 10, 10⟩) none

/-- The root node of the spec's hierarchy-bounds example. -/
def rootNode : Node := Node.mk "1:2" "Root" "FRAME" none (some ⟨100, 200, 50, 80⟩) (some [childNode])

/-- A three-level tree: root, middle child, grandchild. -/
def grandchildNode : Node := Node.mk "1:5" "GChild" "TEXT" none none none

def midNode : Node := Node.mk "1:4" "Mid" "GROUP" none none (some [grandchildNode])

def deepRootNode : Node := Node.mk "1:1" "Deep" "FRAME" none none (some [midNode])

/-- Image-URL map for the export fixtures: two nodes with render URLs plus
one node (`5:6`) that got a URL but has no metadata entry. -/
def exportUrls : String → Option String := fun nodeId =>
  if nodeId = "1:2" then some "https://img/1"
  else if nodeId = "3:4" then some "https://img/2"
  else if nodeId = "5:6" then some "https://img/3"
  else none

/-- Node-metadata map for the export fixtures (no entry for `5:6`). -/
def exportNodes : String → Option NodeData := fun nodeId =>
  if nodeId = "1:2" then some ⟨Node.mk "1:2" "Button" "FRAME" none none none, 0⟩
  else if nodeId = "3:4" then some ⟨Node.mk "3:4" "Card" "FRAME" none none none, 0⟩
  else none

/-- A network where the first render URL answers 404 and everything else
succeeds. -/
def failFirstEnv : String → DLResponse := fun url =>
  if url = "https://img/1" then ⟨404, "Not Found", []⟩ else ⟨200, "OK", [7, 7, 7]⟩

/-! ## Theorems -/

/-- C2: a metadata or image-URL fetch that sees the response sequence
[429 with `Retry-After: 2`, 429 with no header, 200] sleeps 2000 ms (the
`Retry-After` seconds times 1000), then 1000 ms (the fixed default delay),
then returns the 200 response, making exactly 3 HTTP requests. -/
theorem claim_C2_retry_sequence (ra : Option Nat) (rest : List AttemptResult) :
    fetchWithRetry
      (AttemptResult.resp ⟨429, some 2⟩ :: AttemptResult.resp ⟨429, none⟩ ::
        AttemptResult.resp ⟨200, ra⟩ :: rest) 3 1000
      = (Except.ok ⟨200, ra⟩, [2000, 1000], 3) := by
  simp [fetchWithRetry, fetchGo, waitFor]

/-- C3: a fetch that sees three consecutive 429 responses under the default
attempt budget `maxRetries = 3` fails with the retries-exhausted error (the
spec's `RateLimitExceededError`) and returns no successful response. -/
theorem claim_C3_retry_exhausted (ra1 ra2 ra3 : Option Nat) (rest : List AttemptResult) :
    fetchWithRetry
      (AttemptResult.resp ⟨429, ra1⟩ :: AttemptResult.resp ⟨429, ra2⟩ ::
        AttemptResult.resp ⟨429, ra3⟩ :: rest) 3 1000
      = (Except.error "Max retries exceeded",
          [waitFor 1000 ra1, waitFor 1000 ra2, waitFor 1000 ra3], 3) := by
  simp [fetchWithRetry, fetchGo]

/-- C4: the cache key is invariant under permutation of the node-identifier
list, and is the sha-256 hex digest of
`fileId + ":" + sortedNodeIds.join(",")`. -/
theorem claim_C4_cache_key (fileKey : String) (s1 s2 : List String) (h : s1.Perm s2) :
    CacheManager.generateKey fileKey s1 = CacheManager.generateKey fileKey s2 ∧
    CacheManager.generateKey fileKey s1
      = sha256hex (fileKey ++ ":" ++ String.intercalate "," (jsSort s1)) := by
  refine ⟨?_, rfl⟩
  have hp : List.Perm (jsSort s1) (jsSort s2) :=
    ((List.perm_insertionSort _ s1).trans h).trans (List.perm_insertionSort _ s2).symm
  have hsort : jsSort s1 = jsSort s2 :=
    List.eq_of_perm_of_sorted hp
      (List.sorted_insertionSort (α := String) (· ≤ ·) s1)
      (List.sorted_insertionSort (α := String) (· ≤ ·) s2)
  unfold CacheManager.generateKey
  rw [hsort]

/-- Witness for C4 at the spec's own pair `["1:2","1:3"]` / `["1:3","1:2"]`. -/
theorem claim_C4_cache_key_witness :
    CacheManager.generateKey "FK" ["1:2", "1:3"] = CacheManager.generateKey "FK" ["1:3", "1:2"] :=
  (claim_C4_cache_key "FK" ["1:2", "1:3"] ["1:3", "1:2"] (by decide)).1

/-- C5: storing a response and looking it up within the TTL returns the
stored value unchanged; once `now - timestamp > ttl` the lookup is absent
even though the cache file still exists; and an existing but unparseable
record also yields absent rather than an error. -/
theorem claim_C5_cache_roundtrip (cacheDir : String) (ttl t0 t1 : Int)
    (fs : CacheFS GetNodesResponse) (fileKey : String) (nodeIds : List String)
    (resp : GetNodesResponse) :
    (t1 - t0 ≤ ttl →
      CacheManager.get cacheDir t1 (CacheManager.set cacheDir ttl t0 fs fileKey nodeIds resp)
        fileKey nodeIds = some resp) ∧
    (t1 - t0 > ttl →
      CacheManager.get cacheDir t1 (CacheManager.set cacheDir ttl t0 fs fileKey nodeIds resp)
        fileKey nodeIds = none ∧
      CacheManager.set cacheDir ttl t0 fs fileKey nodeIds resp
        (cachePathOf cacheDir fileKey nodeIds) ≠ none) ∧
    (fs (cachePathOf cacheDir fileKey nodeIds) = some CacheFile.corrupt →
      CacheManager.get cacheDir t1 fs fileKey nodeIds = none) := by
  have get_set_eq :
      CacheManager.get cacheDir t1 (CacheManager.set cacheDir ttl t0 fs fileKey nodeIds resp)
        fileKey nodeIds = if t1 - t0 > ttl then none else some resp := by
    unfold CacheManager.get CacheManager.set
    simp
  refine ⟨fun h => ?_, fun h => ⟨?_, ?_⟩, fun h => ?_⟩
  · rw [get_set_eq, if_neg (by omega)]
  · rw [get_set_eq, if_pos (by omega)]
  · simp [CacheManager.set]
  · simp [CacheManager.get, h]

/-- Witness for C5: a fresh lookup at `now = 5` with TTL 10 hits; a lookup
at `now = 99` misses although the file is present; a corrupt record misses. -/
theorem claim_C5_cache_roundtrip_witness :
    CacheManager.get ".cache" 5 (CacheManager.set ".cache" 10 0 emptyFS "FK" ["1:2"] sampleResponse)
      "FK" ["1:2"] = some sampleResponse ∧
    (CacheManager.get ".cache" 99
        (CacheManager.set ".cache" 10 0 emptyFS "FK" ["1:2"] sampleResponse)
        "FK" ["1:2"] = none ∧
      CacheManager.set ".cache" 10 0 emptyFS "FK" ["1:2"] sampleResponse
        (cachePathOf ".cache" "FK" ["1:2"]) ≠ none) ∧
    CacheManager.get ".cache" 5 corruptFS "FK" ["1:2"] = none :=
  ⟨(claim_C5_cache_roundtrip ".cache" 10 0 5 emptyFS "FK" ["1:2"] sampleResponse).1 (by decide),
   (claim_C5_cache_roundtrip ".cache" 10 0 99 emptyFS "FK" ["1:2"] sampleResponse).2.1 (by decide),
   (claim_C5_cache_roundtrip ".cache" 10 0 5 corruptFS "FK" ["1:2"] sampleResponse).2.2 rfl⟩

/-! ## Lemmas about the URL scanner -/

/-- `takeWhile` over an append splits at the first failing character. -/
theorem takeWhile_append_eq (p : Char → Bool) (l1 l2 : List Char)
    (h1 : ∀ a ∈ l1, p a = true) (h2 : ∀ c, l2.head? = some c → p c = false) :
    (l1 ++ l2).takeWhile p = l1 := by
  induction l1 with
  | nil =>
      cases l2 with
      | nil => rfl
      | cons c t => simp [List.takeWhile_cons, h2 c rfl]
  | cons a t ih =>
      have ha := h1 a (by simp)
      simp [List.takeWhile_cons, ha, ih fun x hx => h1 x (by simp [hx])]

/-- `dropWhile` over an append splits at the first failing character. -/
theorem dropWhile_append_eq (p : Char → Bool) (l1 l2 : List Char)
    (h1 : ∀ a ∈ l1, p a = true) (h2 : ∀ c, l2.head? = some c → p c = false) :
    (l1 ++ l2).dropWhile p = l2 := by
  induction l1 with
  | nil =>
      cases l2 with
      | nil => rfl
      | cons c t => simp [List.dropWhile_cons, h2 c rfl]
  | cons a t ih =>
      have ha := h1 a (by simp)
      simp [List.dropWhile_cons, ha, ih fun x hx => h1 x (by simp [hx])]

/-- Matching a literal against itself followed by anything succeeds. -/
theorem dropLit_self (pat l : List Char) : dropLit pat (pat ++ l) = some l := by
  induction pat with
  | nil => rfl
  | cons c cs ih => simp [dropLit, ih]

/-- A scan steps past a position where the pattern fails. -/
theorem scanFor_cons_none (pAt : List Char → Option (List Char)) (c : Char)
    (t : List Char) (h : pAt (c :: t) = none) :
    scanFor pAt (c :: t) = scanFor pAt t := by
  simp [scanFor, h]

/-- A scan over `l1 ++ l2` on which the pattern fails at every position
inside `l1` is the scan over `l2`. -/
theorem scanFor_append (pAt : List Char → Option (List Char)) (l1 l2 : List Char)
    (h : ∀ i, i < l1.length → pAt (l1.drop i ++ l2) = none) :
    scanFor pAt (l1 ++ l2) = scanFor pAt l2 := by
  induction l1 with
  | nil => rfl
  | cons c t ih =>
      have h0 : pAt (c :: (t ++ l2)) = none := by
        have := h 0 (by simp)
        simpa using this
      have hrec : scanFor pAt (t ++ l2) = scanFor pAt l2 :=
        ih fun i hi => by
          have := h (i + 1) (by simpa using Nat.succ_lt_succ hi)
          simpa using this
      rw [List.cons_append, scanFor_cons_none pAt c (t ++ l2) h0, hrec]

/-- A scan whose pattern already matches at position 0 returns that match. -/
theorem scanFor_of_hit (pAt : List Char → Option (List Char)) (l : List Char)
    (r : List Char) (h : pAt l = some r) : scanFor pAt l = some r := by
  cases l with
  | nil => simpa [scanFor] using h
  | cons c t => simp [scanFor, h]

/-- The `file|design` pattern fails at any position not starting with `f`. -/
theorem fileDesignAt_cons_ne (c : Char) (l : List Char) (h : ¬c = 'f') :
    fileDesignAt (c :: l) = none := by
  unfold fileDesignAt
  rw [show "figma.com/".data = 'f' :: "igma.com/".data from rfl]
  simp [dropLit, h]

/-- The `proto` pattern fails at any position not starting with `f`. -/
theorem protoAt_cons_ne (c : Char) (l : List Char) (h : ¬c = 'f') :
    protoAt (c :: l) = none := by
  unfold protoAt
  rw [show "figma.com/proto/".data = 'f' :: "igma.com/proto/".data from rfl]
  simp [dropLit, h]

/-- Capturing from an alphanumeric run followed by a non-alphanumeric
boundary yields exactly the run. -/
theorem capAlnum_split (idl restl : List Char) (hne : idl ≠ [])
    (hall : ∀ c ∈ idl, isAlnum c = true)
    (hrest : ∀ c, restl.head? = some c → isAlnum c = false) :
    capAlnum (idl ++ restl) = some idl := by
  unfold capAlnum
  rw [takeWhile_append_eq isAlnum idl restl hall hrest]
  simp [hne]

/-- The `file|design` pattern at a `figma.com/file/<id><boundary>` position
captures `<id>`. -/
theorem fileDesignAt_file (idl restl : List Char) (hne : idl ≠ [])
    (hall : ∀ c ∈ idl, isAlnum c = true)
    (hrest : ∀ c, restl.head? = some c → isAlnum c = false) :
    fileDesignAt ("figma.com/file/".data ++ (idl ++ restl)) = some idl := by
  have hsplit : "figma.com/file/".data ++ (idl ++ restl)
      = "figma.com/".data ++ ("file/".data ++ (idl ++ restl)) := by simp
  rw [hsplit]
  unfold fileDesignAt
  rw [dropLit_self, Option.some_bind, dropLit_self, Option.some_bind,
    capAlnum_split idl restl hne hall hrest]
  simp

/-- The `file|design` pattern at a `figma.com/design/<id><boundary>`
position captures `<id>` (the `file/` branch fails on `design/...`). -/
theorem fileDesignAt_design (idl restl : List Char) (hne : idl ≠ [])
    (hall : ∀ c ∈ idl, isAlnum c = true)
    (hrest : ∀ c, restl.head? = some c → isAlnum c = false) :
    fileDesignAt ("figma.com/design/".data ++ (idl ++ restl)) = some idl := by
  have hsplit : "figma.com/design/".data ++ (idl ++ restl)
      = "figma.com/".data ++ ("design/".data ++ (idl ++ restl)) := by simp
  rw [hsplit]
  unfold fileDesignAt
  rw [dropLit_self, Option.some_bind]
  have hfile : dropLit "file/".data ("design/".data ++ (idl ++ restl)) = none := rfl
  simp only [hfile, Option.none_bind, Option.none_orElse, dropLit_self, Option.some_bind]
  exact capAlnum_split idl restl hne hall hrest

/-- C1, counterexample: the spec's own example URL has host `x.com`, but the
code's patterns require the literal `figma.com/` before the path shape, so
`parseFileKey` rejects it instead of returning `"ABC123"`. -/
theorem claim_C1_counterexample :
    parseFileKey "https://x.com/file/ABC123/Title"
      = Except.error "Invalid Figma URL: https://x.com/file/ABC123/Title" := by rfl

/-- C1 (amended): `parseFileKey` accepts the three path shapes only with the
`figma.com/` host part in front — `figma.com/file/<id>`,
`figma.com/design/<id>` and `figma.com/proto/<id>` — returning the
alphanumeric identifier; a string containing none of these (such as
`not a url`) fails with the invalid-URL error. -/
theorem claim_C1_amended_parseFileKey :
    (∀ id rest : String, id.data ≠ [] → (∀ c ∈ id.data, isAlnum c = true) →
       (∀ c, rest.data.head? = some c → isAlnum c = false) →
       parseFileKey ("https://www.figma.com/file/" ++ id ++ rest) = Except.ok id) ∧
    (∀ id rest : String, id.data ≠ [] → (∀ c ∈ id.data, isAlnum c = true) →
       (∀ c, rest.data.head? = some c → isAlnum c = false) →
       parseFileKey ("https://www.figma.com/design/" ++ id ++ rest) = Except.ok id) ∧
    parseFileKey "https://www.figma.com/proto/XYZ9/Page" = Except.ok "XYZ9" ∧
    parseFileKey "not a url" = Except.error "Invalid Figma URL: not a url" := by
  refine ⟨?_, ?_, by rfl, by rfl⟩
  · intro id rest hne hall hrest
    unfold parseFileKey
    have hdata : ("https://www.figma.com/file/" ++ id ++ rest).data
        = "https://www.".data ++ ("figma.com/file/".data ++ (id.data ++ rest.data)) := by
      simp [String.data_append]
    have hfail : ∀ i, i < "https://www.".data.length →
        fileDesignAt ("https://www.".data.drop i ++
          ("figma.com/file/".data ++ (id.data ++ rest.data))) = none := by
      intro i hi
      have hi' : i < 12 := by simpa using hi
      interval_cases i <;> exact fileDesignAt_cons_ne _ _ (by decide)
    rw [hdata, scanFor_append fileDesignAt "https://www.".data
        ("figma.com/file/".data ++ (id.data ++ rest.data)) hfail,
      scanFor_of_hit _ _ id.data (fileDesignAt_file id.data rest.data hne hall hrest)]
  · intro id rest hne hall hrest
    unfold parseFileKey
    have hdata : ("https://www.figma.com/design/" ++ id ++ rest).data
        = "https://www.".data ++ ("figma.com/design/".data ++ (id.data ++ rest.data)) := by
      simp [String.data_append]
    have hfail : ∀ i, i < "https://www.".data.length →
        fileDesignAt ("https://www.".data.drop i ++
          ("figma.com/design/".data ++ (id.data ++ rest.data))) = none := by
      intro i hi
      have hi' : i < 12 := by simpa using hi
      interval_cases i <;> exact fileDesignAt_cons_ne _ _ (by decide)
    rw [hdata, scanFor_append fileDesignAt "https://www.".data
        ("figma.com/design/".data ++ (id.data ++ rest.data)) hfail,
      scanFor_of_hit _ _ id.data (fileDesignAt_design id.data rest.data hne hall hrest)]

/-- Witness for C1: the amended theorem applied at `ABC123` with trailing
path `/Title`, and at a `design` URL with a query string. -/
theorem claim_C1_amended_witness :
    parseFileKey ("https://www.figma.com/file/" ++ "ABC123" ++ "/Title")
      = Except.ok "ABC123" ∧
    parseFileKey ("https://www.figma.com/design/" ++ "ABC123" ++ "?node-id=1-2")
      = Except.ok "ABC123" :=
  ⟨claim_C1_amended_parseFileKey.1 "ABC123" "/Title" (by decide) (by decide) (by decide),
   claim_C1_amended_parseFileKey.2.1 "ABC123" "?node-id=1-2" (by decide) (by decide) (by decide)⟩

/-- C8, counterexample: in `a12-34` the first hyphen does separate two
numeric runs, yet `normalizeNodeId` leaves the string unchanged — the
replacement is anchored to the start of the string. -/
theorem claim_C8_counterexample :
    normalizeNodeId "a12-34" = "a12-34" ∧ normalizeNodeId "a12-34" ≠ "a12:34" :=
  ⟨rfl, by decide⟩

/-- C8 (amended): `normalizeNodeId` replaces the hyphen with a colon only
when the string begins with a digit run immediately followed by a hyphen
and a digit (the anchored pattern `^(\d+)-(\d+)`); a string in canonical
colon form, a string not starting with a digit, and a digit run whose
hyphen is not followed by a digit are all returned unchanged. -/
theorem claim_C8_amended_normalizeNodeId :
    (∀ d1 d2 rest : List Char, d1 ≠ [] → (∀ c ∈ d1, c.isDigit = true) →
       d2 ≠ [] → (∀ c ∈ d2, c.isDigit = true) →
       (∀ c, rest.head? = some c → c.isDigit = false) →
       normalizeNodeId (String.mk (d1 ++ '-' :: (d2 ++ rest)))
         = String.mk (d1 ++ ':' :: (d2 ++ rest))) ∧
    (∀ d1 r : List Char, (∀ c ∈ d1, c.isDigit = true) →
       normalizeNodeId (String.mk (d1 ++ ':' :: r)) = String.mk (d1 ++ ':' :: r)) ∧
    (∀ c : Char, ∀ l : List Char, c.isDigit = false →
       normalizeNodeId (String.mk (c :: l)) = String.mk (c :: l)) ∧
    (∀ d1 r : List Char, ∀ c : Char, (∀ a ∈ d1, a.isDigit = true) → c.isDigit = false →
       normalizeNodeId (String.mk (d1 ++ '-' :: c :: r)) = String.mk (d1 ++ '-' :: c :: r)) := by
  refine ⟨?_, ?_, ?_, ?_⟩
  · intro d1 d2 rest h1ne h1d h2ne h2d hrest
    cases d1 with
    | nil => exact absurd rfl h1ne
    | cons a t =>
        cases d2 with
        | nil => exact absurd rfl h2ne
        | cons b u =>
            have hbd : ∀ c, ('-' :: (b :: u ++ rest)).head? = some c → Char.isDigit c = false := by
              intro c hc
              simp at hc
              subst hc
              rfl
            have htake : ((a :: t) ++ '-' :: (b :: u ++ rest)).takeWhile Char.isDigit = a :: t :=
              takeWhile_append_eq _ _ _ h1d hbd
            have hdrop :
                ((a :: t) ++ '-' :: (b :: u ++ rest)).dropWhile Char.isDigit
                  = '-' :: (b :: u ++ rest) :=
              dropWhile_append_eq _ _ _ h1d hbd
            simp only [normalizeNodeId, htake, hdrop]
            simp [List.takeWhile_cons, h2d b (by simp)]
  · intro d1 r hd
    have hcol : ∀ c, (':' :: r).head? = some c → Char.isDigit c = false := by
      intro c hc
      simp at hc
      subst hc
      rfl
    cases d1 with
    | nil => simp [normalizeNodeId, List.takeWhile_cons, List.dropWhile_cons]
    | cons a t =>
        have htake : ((a :: t) ++ ':' :: r).takeWhile Char.isDigit = a :: t :=
          takeWhile_append_eq _ _ _ hd hcol
        have hdrop : ((a :: t) ++ ':' :: r).dropWhile Char.isDigit = ':' :: r :=
          dropWhile_append_eq _ _ _ hd hcol
        simp only [normalizeNodeId, htake, hdrop]
        simp
  · intro c l hc
    simp [normalizeNodeId, List.takeWhile_cons, List.dropWhile_cons, hc]
  · intro d1 r c hd hc
    have hbd : ∀ a, ('-' :: c :: r).head? = some a → Char.isDigit a = false := by
      intro a ha
      simp at ha
      subst ha
      rfl
    cases d1 with
    | nil => simp [normalizeNodeId, List.takeWhile_cons, List.dropWhile_cons]
    | cons a t =>
        have htake : ((a :: t) ++ '-' :: c :: r).takeWhile Char.isDigit = a :: t :=
          takeWhile_append_eq _ _ _ hd hbd
        have hdrop : ((a :: t) ++ '-' :: c :: r).dropWhile Char.isDigit = '-' :: c :: r :=
          dropWhile_append_eq _ _ _ hd hbd
        simp only [normalizeNodeId, htake, hdrop]
        simp [List.takeWhile_cons, hc]

/-- Witness for C8: the amended theorem at `12-34`, `12:34`, `a12-34` and
`12-x`. -/
theorem claim_C8_amended_witness :
    normalizeNodeId (String.mk (['1', '2'] ++ '-' :: (['3', '4'] ++ [])))
      = String.mk (['1', '2'] ++ ':' :: (['3', '4'] ++ [])) ∧
    normalizeNodeId (String.mk (['1', '2'] ++ ':' :: ['3', '4']))
      = String.mk (['1', '2'] ++ ':' :: ['3', '4']) ∧
    normalizeNodeId (String.mk ('a' :: "12-34".data)) = String.mk ('a' :: "12-34".data) ∧
    normalizeNodeId (String.mk (['1', '2'] ++ '-' :: 'x' :: []))
      = String.mk (['1', '2'] ++ '-' :: 'x' :: []) :=
  ⟨claim_C8_amended_normalizeNodeId.1 ['1', '2'] ['3', '4'] [] (by decide) (by decide)
     (by decide) (by decide) (by decide),
   claim_C8_amended_normalizeNodeId.2.1 ['1', '2'] ['3', '4'] (by decide),
   claim_C8_amended_normalizeNodeId.2.2.1 'a' "12-34".data (by decide),
   claim_C8_amended_normalizeNodeId.2.2.2 ['1', '2'] [] 'x' (by decide) (by decide)⟩

/-- The `bounds` field of a built view node. -/
theorem buildNodeHierarchy_bounds (i n t : String) (v : Option Bool) (bb : Option BBox)
    (ch : Option (List Node)) (origin : ℚ × ℚ) (d md : Nat) (ic : Bool) :
    (buildNodeHierarchy (Node.mk i n t v bb ch) origin d md ic).bounds
      = bb.map (boundsFrom origin) := by
  rw [buildNodeHierarchy.eq_def]

/-- The `children` field of a built view node with no source children. -/
theorem buildNodeHierarchy_children_none (i n t : String) (v : Option Bool) (bb : Option BBox)
    (origin : ℚ × ℚ) (d md : Nat) (ic : Bool) :
    (buildNodeHierarchy (Node.mk i n t v bb none) origin d md ic).children = none := by
  rw [buildNodeHierarchy.eq_def]

/-- The `children` field of a built view node with a source children list. -/
theorem buildNodeHierarchy_children_some (i n t : String) (v : Option Bool) (bb : Option BBox)
    (cs : List Node) (origin : ℚ × ℚ) (d md : Nat) (ic : Bool) :
    (buildNodeHierarchy (Node.mk i n t v bb (some cs)) origin d md ic).children
      = if ic = true ∧ 0 < cs.length ∧ d < md then
          some (cs.map fun c => buildNodeHierarchy c origin (d + 1) md ic)
        else none := by
  rw [buildNodeHierarchy.eq_def]
  show (if ic = true ∧ 0 < cs.length ∧ d < md then
      some (cs.attach.map fun c => buildNodeHierarchy c.1 origin (d + 1) md ic)
    else none) = _
  by_cases hcond : ic = true ∧ 0 < cs.length ∧ d < md
  · rw [if_pos hcond, if_pos hcond]
    exact congrArg some (List.attach_map_coe cs
      fun c => buildNodeHierarchy c origin (d + 1) md ic)
  · rw [if_neg hcond, if_neg hcond]

/-- C6: every visited node that carries a bounding box is emitted with
bounds `{x: round(bbox.x - origin.x), y: round(bbox.y - origin.y),
width: round(bbox.width), height: round(bbox.height)}`, the recursion hands
the same origin (the root node's own origin, per `rootOrigin`) to every
child, and on the spec's example (root box `{100,200,50,80}`, child box
`{110,210,10,10}`) the root gets bounds `{0,0,50,80}` and the child
`{10,10,10,10}`. -/
theorem claim_C6_hierarchy_bounds :
    (∀ (nd : Node) (origin : ℚ × ℚ) (d md : Nat) (ic : Bool),
       (buildNodeHierarchy nd origin d md ic).bounds
         = nd.absoluteBoundingBox.map (boundsFrom origin)) ∧
    (∀ (nd : Node) (origin : ℚ × ℚ) (d md : Nat) (ic : Bool) (cs : List Node),
       nd.children = some cs → ic = true → 0 < cs.length → d < md →
       (buildNodeHierarchy nd origin d md ic).children
         = some (cs.map fun c => buildNodeHierarchy c origin (d + 1) md ic)) ∧
    (buildNodeHierarchy rootNode (rootOrigin rootNode) 0 10 true).bounds
      = some ⟨0, 0, 50, 80⟩ ∧
    (buildNodeHierarchy rootNode (rootOrigin rootNode) 0 10 true).children
      = some [buildNodeHierarchy childNode (rootOrigin rootNode) 1 10 true] ∧
    (buildNodeHierarchy childNode (rootOrigin rootNode) 1 10 true).bounds
      = some ⟨10, 10, 10, 10⟩ := by
  refine ⟨?_, ?_, ?_, ?_, ?_⟩
  · intro nd origin d md ic
    cases nd
    rw [buildNodeHierarchy_bounds]
    rfl
  · intro nd origin d md ic cs hch hic hlen hd
    cases nd with
    | mk i n t v bb ch =>
        have : ch = some cs := hch
        subst this
        rw [buildNodeHierarchy_children_some, if_pos ⟨hic, hlen, hd⟩]
  · rw [show rootOrigin rootNode = (100, 200) from rfl, rootNode,
      buildNodeHierarchy_bounds]
    have : boundsFrom (100, 200) ⟨100, 200, 50, 80⟩ = ⟨0, 0, 50, 80⟩ := by
      unfold boundsFrom
      norm_num
    rw [show (some ⟨100, 200, 50, 80⟩ : Option BBox).map (boundsFrom (100, 200))
        = some (boundsFrom (100, 200) ⟨100, 200, 50, 80⟩) from rfl, this]
  · rw [rootNode, buildNodeHierarchy_children_some, if_pos (by simp)]
    rfl
  · rw [show rootOrigin rootNode = (100, 200) from rfl, childNode,
      buildNodeHierarchy_bounds]
    have : boundsFrom (100, 200) ⟨110, 210, 10, 10⟩ = ⟨10, 10, 10, 10⟩ := by
      unfold boundsFrom
      norm_num
    rw [show (some ⟨110, 210, 10, 10⟩ : Option BBox).map (boundsFrom (100, 200))
        = some (boundsFrom (100, 200) ⟨110, 210, 10, 10⟩) from rfl, this]

/-- Witness for C6: the children equation at the example root node. -/
theorem claim_C6_hierarchy_bounds_witness :
    (buildNodeHierarchy rootNode (rootOrigin rootNode) 0 10 true).children
      = some ([childNode].map fun c =>
          buildNodeHierarchy c (rootOrigin rootNode) (0 + 1) 10 true) :=
  claim_C6_hierarchy_bounds.2.1 rootNode (rootOrigin rootNode) 0 10 true [childNode]
    rfl rfl (by decide) (by decide)

/-- C7: the built view carries a populated `children` field exactly when
`includeChildren` is set, `depth < maxDepth`, and the source node actually
has children; otherwise the field is absent (no placeholder).  In
particular, with `depth = 0` and `maxDepth = 1` every direct child view
omits its own children — grandchildren are truncated away. -/
theorem claim_C7_depth_truncation :
    (∀ (nd : Node) (origin : ℚ × ℚ) (d md : Nat) (ic : Bool),
       ((buildNodeHierarchy nd origin d md ic).children ≠ none
         ↔ ic = true ∧ d < md ∧ ∃ cs, nd.children = some cs ∧ 0 < cs.length)) ∧
    (∀ (nd : Node) (origin : ℚ × ℚ),
       ∀ info ∈ ((buildNodeHierarchy nd origin 0 1 true).children.getD []),
         info.children = none) := by
  have hiff : ∀ (nd : Node) (origin : ℚ × ℚ) (d md : Nat) (ic : Bool),
      ((buildNodeHierarchy nd origin d md ic).children ≠ none
        ↔ ic = true ∧ d < md ∧ ∃ cs, nd.children = some cs ∧ 0 < cs.length) := by
    intro nd origin d md ic
    cases nd with
    | mk i n t v bb ch =>
        cases ch with
        | none =>
            rw [buildNodeHierarchy_children_none]
            simp [Node.children]
        | some cs =>
            rw [buildNodeHierarchy_children_some]
            by_cases hcond : ic = true ∧ 0 < cs.length ∧ d < md
            · simp [Node.children, hcond, hcond.1, hcond.2.1, hcond.2.2]
            · rw [if_neg hcond]
              simp only [ne_eq, not_true_eq_false, Node.children, Option.some.injEq]
              constructor
              · intro hfalse
                exact hfalse.elim
              · rintro ⟨hic, hd, cs2, hcs2, hlen⟩
                exact absurd ⟨hic, hcs2 ▸ hlen, hd⟩ hcond
  refine ⟨hiff, ?_⟩
  intro nd origin info hmem
  cases nd with
  | mk i n t v bb ch =>
      cases ch with
      | none =>
          rw [buildNodeHierarchy_children_none] at hmem
          simp at hmem
      | some cs =>
          rw [buildNodeHierarchy_children_some] at hmem
          by_cases hcond : (true : Bool) = true ∧ 0 < cs.length ∧ 0 < 1
          · rw [if_pos hcond] at hmem
            simp only [Option.getD_some] at hmem
            obtain ⟨c, _, rfl⟩ := List.mem_map.mp hmem
            cases hcc : (buildNodeHierarchy c origin (0 + 1) 1 true).children with
            | none => rfl
            | some x =>
                have hne : (buildNodeHierarchy c origin (0 + 1) 1 true).children ≠ none := by
                  simp [hcc]
                have hx := (hiff c origin (0 + 1) 1 true).mp hne
                exact absurd hx.2.1 (by omega)
          · rw [if_neg hcond] at hmem
            simp at hmem

/-- Witness for C7: in the three-level tree, the view of the middle node —
the sole member of the root view's children at `maxDepth = 1` — has no
children of its own. -/
theorem claim_C7_depth_truncation_witness :
    (buildNodeHierarchy midNode (0, 0) (0 + 1) 1 true).children = none :=
  claim_C7_depth_truncation.2 deepRootNode (0, 0)
    (buildNodeHierarchy midNode (0, 0) (0 + 1) 1 true)
    (by rw [deepRootNode, buildNodeHierarchy_children_some, if_pos (by simp)]; simp)

/-- C9, counterexample: during a batch over `["1:2", "3:4"]` in which both
nodes have URLs and metadata, a download failure (404) on the first node
does not merely skip that node — the thrown error aborts the whole batch,
so the sibling `3:4` is never processed and no events are produced. -/
theorem claim_C9_counterexample :
    exportLoop "FK" "png" false exportUrls exportNodes failFirstEnv ["1:2", "3:4"]
      = Except.error "Failed to download image: 404 Not Found" := by rfl

/-- C9 (amended): a node with a missing image URL or a missing metadata
entry is skipped with a warning and every remaining sibling is still
processed, but a failed image download (the spec's `DownloadError`)
propagates and aborts the remainder of the batch. -/
theorem claim_C9_amended_export_skips :
    (∀ (fk fmt : String) (wm : Bool) (urls : String → Option String)
       (nmap : String → Option NodeData) (fenv : String → DLResponse)
       (nid : String) (rest : List String),
       urls nid = none →
       exportLoop fk fmt wm urls nmap fenv (nid :: rest)
         = (exportLoop fk fmt wm urls nmap fenv rest).map
             (ExportEvent.warnNoUrl nid :: ·)) ∧
    (∀ (fk fmt : String) (wm : Bool) (urls : String → Option String)
       (nmap : String → Option NodeData) (fenv : String → DLResponse)
       (nid : String) (rest : List String) (u : String),
       urls nid = some u → nmap nid = none →
       exportLoop fk fmt wm urls nmap fenv (nid :: rest)
         = (exportLoop fk fmt wm urls nmap fenv rest).map
             (ExportEvent.warnNoData nid :: ·)) ∧
    (∀ (fk fmt : String) (wm : Bool) (urls : String → Option String)
       (nmap : String → Option NodeData) (fenv : String → DLResponse)
       (nid : String) (rest : List String) (u : String) (nd : NodeData),
       urls nid = some u → nmap nid = some nd → respOk (fenv u) = false →
       exportLoop fk fmt wm urls nmap fenv (nid :: rest)
         = Except.error ("Failed to download image: " ++ toString (fenv u).status
             ++ " " ++ (fenv u).statusText)) := by
  refine ⟨?_, ?_, ?_⟩
  · intro fk fmt wm urls nmap fenv nid rest hu
    simp [exportLoop, hu]
  · intro fk fmt wm urls nmap fenv nid rest u hu hn
    simp [exportLoop, hu, hn]
  · intro fk fmt wm urls nmap fenv nid rest u nd hu hn hr
    simp [exportLoop, hu, hn, downloadImage, hr]

/-- Witness for C9: the skip cases at node `9:9` (no URL) and `5:6` (no
metadata), and the abort case at `1:2` against the 404 network. -/
theorem claim_C9_amended_export_skips_witness :
    exportLoop "FK" "png" false exportUrls exportNodes failFirstEnv ("9:9" :: ["3:4"])
      = (exportLoop "FK" "png" false exportUrls exportNodes failFirstEnv ["3:4"]).map
          (ExportEvent.warnNoUrl "9:9" :: ·) ∧
    exportLoop "FK" "png" false exportUrls exportNodes failFirstEnv ("5:6" :: ["3:4"])
      = (exportLoop "FK" "png" false exportUrls exportNodes failFirstEnv ["3:4"]).map
          (ExportEvent.warnNoData "5:6" :: ·) ∧
    exportLoop "FK" "png" false exportUrls exportNodes failFirstEnv ("1:2" :: ["3:4"])
      = Except.error ("Failed to download image: "
          ++ toString (failFirstEnv "https://img/1").status ++ " "
          ++ (failFirstEnv "https://img/1").statusText) :=
  ⟨claim_C9_amended_export_skips.1 "FK" "png" false exportUrls exportNodes failFirstEnv
     "9:9" ["3:4"] rfl,
   claim_C9_amended_export_skips.2.1 "FK" "png" false exportUrls exportNodes failFirstEnv
     "5:6" ["3:4"] "https://img/3" rfl rfl,
   claim_C9_amended_export_skips.2.2 "FK" "png" false exportUrls exportNodes failFirstEnv
     "1:2" ["3:4"] "https://img/1" ⟨Node.mk "1:2" "Button" "FRAME" none none none, 0⟩
     rfl rfl rfl⟩

/-! ## Lemmas about file-name sanitization -/

/-- A character that is not an uppercase ASCII letter maps to itself. -/
theorem asciiToLower_eq_self (c : Char) (hc : c ∉ upperChars) : asciiToLower c = c := by
  unfold asciiToLower
  have hf : lowerTable.find? (fun p => p.1 = c) = none := by
    rw [List.find?_eq_none]
    intro a ha
    fin_cases ha <;>
      · simp only [decide_eq_true_eq]
        intro h
        subst h
        exact hc (by decide)
  rw [hf]
  rfl

/-- Lowercasing never yields an uppercase ASCII letter. -/
theorem asciiToLower_not_upper (c : Char) : asciiToLower c ∉ upperChars := by
  by_cases hc : c ∈ upperChars
  · fin_cases hc <;> decide
  · rw [asciiToLower_eq_self c hc]
    exact hc

/-- Lowercasing maps exactly the underscore to the underscore. -/
theorem asciiToLower_underscore_iff (c : Char) : asciiToLower c = '_' ↔ c = '_' := by
  by_cases hc : c ∈ upperChars
  · fin_cases hc <;> decide
  · rw [asciiToLower_eq_self c hc]

/-- Lowercasing preserves freedom from invalid file-name characters. -/
theorem asciiToLower_invalid (c : Char) (h : invalidChar c = false) :
    invalidChar (asciiToLower c) = false := by
  by_cases hc : c ∈ upperChars
  · fin_cases hc <;> decide
  · rwa [asciiToLower_eq_self c hc]

/-- Lowercasing preserves freedom from whitespace. -/
theorem asciiToLower_ws (c : Char) (h : c.isWhitespace = false) :
    (asciiToLower c).isWhitespace = false := by
  by_cases hc : c ∈ upperChars
  · fin_cases hc <;> decide
  · rwa [asciiToLower_eq_self c hc]

/-- Replacing invalid characters leaves no invalid character behind. -/
theorem mem_replaceInvalid (l : List Char) :
    ∀ a ∈ replaceInvalid l, invalidChar a = false := by
  intro a ha
  simp only [replaceInvalid, List.mem_map] at ha
  obtain ⟨c, _, rfl⟩ := ha
  by_cases h : invalidChar c = true
  · rw [if_pos h]
    decide
  · rw [if_neg h]
    simpa using h

/-- Whitespace replacement leaves no whitespace; every output character is
an underscore or came from the input. -/
theorem mem_wsToUnderscore (l : List Char) :
    ∀ a ∈ wsToUnderscore l, a.isWhitespace = false ∧ (a = '_' ∨ a ∈ l) := by
  induction l using wsToUnderscore.induct with
  | case1 =>
      intro a ha
      simp [wsToUnderscore] at ha
  | case2 c hws =>
      intro a ha
      simp [wsToUnderscore, hws] at ha
      subst ha
      exact ⟨by decide, Or.inl rfl⟩
  | case3 c hws =>
      intro a ha
      simp [wsToUnderscore, hws] at ha
      subst ha
      exact ⟨by simpa using hws, Or.inr (by simp)⟩
  | case4 c1 c2 rest hboth ih =>
      intro a ha
      rw [wsToUnderscore] at ha
      rw [if_pos hboth] at ha
      obtain ⟨h1, h2⟩ := ih a ha
      exact ⟨h1, h2.imp id fun h => by simp [h]⟩
  | case5 c1 c2 rest hboth ih =>
      intro a ha
      rw [wsToUnderscore] at ha
      rw [if_neg hboth] at ha
      rcases List.mem_cons.mp ha with h | h
      · subst h
        by_cases h1 : c1.isWhitespace = true
        · rw [if_pos h1]
          exact ⟨by decide, Or.inl rfl⟩
        · rw [if_neg h1]
          exact ⟨by simpa using h1, Or.inr (by simp)⟩
      · obtain ⟨hw, hm⟩ := ih a h
        exact ⟨hw, hm.imp id fun hh => by simp [hh]⟩

/-- Collapsing underscores only keeps input characters. -/
theorem mem_collapseUnderscores (l : List Char) :
    ∀ a ∈ collapseUnderscores l, a ∈ l := by
  induction l using collapseUnderscores.induct with
  | case1 =>
      intro a ha
      simp [collapseUnderscores] at ha
  | case2 c =>
      intro a ha
      simpa [collapseUnderscores] using ha
  | case3 c1 c2 rest hboth ih =>
      intro a ha
      rw [collapseUnderscores, if_pos hboth] at ha
      exact List.mem_cons_of_mem c1 (ih a ha)
  | case4 c1 c2 rest hboth ih =>
      intro a ha
      rw [collapseUnderscores, if_neg hboth] at ha
      rcases List.mem_cons.mp ha with h | h
      · simp [h]
      · exact List.mem_cons_of_mem c1 (ih a h)

/-- Collapsing underscores preserves the head character. -/
theorem head?_collapseUnderscores (l : List Char) :
    (collapseUnderscores l).head? = l.head? := by
  induction l using collapseUnderscores.induct with
  | case1 => rfl
  | case2 c => rfl
  | case3 c1 c2 rest hboth ih =>
      rw [collapseUnderscores, if_pos hboth, ih]
      have h1 : c1 = '_' := by
        have := hboth
        simp at this
        exact this.1
      have h2 : c2 = '_' := by
        have := hboth
        simp at this
        exact this.2
      rw [h1, h2]
      rfl
  | case4 c1 c2 rest hboth ih =>
      rw [collapseUnderscores, if_neg hboth]
      rfl

/-- After collapsing, no two adjacent characters are both underscores. -/
theorem chain'_collapseUnderscores (l : List Char) :
    List.Chain' (fun a b => ¬(a = '_' ∧ b = '_')) (collapseUnderscores l) := by
  induction l using collapseUnderscores.induct with
  | case1 => simp [collapseUnderscores]
  | case2 c => simp [collapseUnderscores]
  | case3 c1 c2 rest hboth ih =>
      rw [collapseUnderscores, if_pos hboth]
      exact ih
  | case4 c1 c2 rest hboth ih =>
      rw [collapseUnderscores, if_neg hboth]
      rw [List.chain'_cons']
      refine ⟨?_, ih⟩
      intro y hy
      rw [head?_collapseUnderscores] at hy
      simp at hy
      subst hy
      simpa using hboth

/-- Stripping one leading underscore only keeps input characters. -/
theorem mem_stripLeadingUnderscore (l : List Char) :
    ∀ a ∈ stripLeadingUnderscore l, a ∈ l := by
  cases l with
  | nil => intro a ha; simp [stripLeadingUnderscore] at ha
  | cons c rest =>
      intro a ha
      rw [stripLeadingUnderscore] at ha
      by_cases h : c = '_'
      · rw [if_pos h] at ha
        exact List.mem_cons_of_mem c ha
      · rwa [if_neg h] at ha

/-- Stripping one leading underscore preserves the adjacency invariant. -/
theorem chain'_stripLeadingUnderscore {R : Char → Char → Prop} (l : List Char)
    (h : List.Chain' R l) : List.Chain' R (stripLeadingUnderscore l) := by
  cases l with
  | nil => exact h
  | cons c rest =>
      rw [stripLeadingUnderscore]
      by_cases hc : c = '_'
      · rw [if_pos hc]
        exact h.tail
      · rwa [if_neg hc]

/-- After stripping the leading underscore of a collapsed list, the head is
not an underscore. -/
theorem head_stripLeadingUnderscore (l : List Char)
    (h : List.Chain' (fun a b => ¬(a = '_' ∧ b = '_')) l) :
    ∀ c, (stripLeadingUnderscore l).head? = some c → c ≠ '_' := by
  cases l with
  | nil => intro c hc; simp [stripLeadingUnderscore] at hc
  | cons c0 rest =>
      intro c hc
      rw [stripLeadingUnderscore] at hc
      by_cases h0 : c0 = '_'
      · rw [if_pos h0] at hc
        cases rest with
        | nil => simp at hc
        | cons c1 r2 =>
            simp at hc
            subst hc
            subst h0
            have := (List.chain'_cons.mp h).1
            intro hcu
            exact this ⟨rfl, hcu⟩
      · rw [if_neg h0] at hc
        simp at hc
        subst hc
        exact h0

/-- Stripping one trailing underscore yields a prefix of the input. -/
theorem stripTrailingUnderscore_prefixOf (l : List Char) :
    stripTrailingUnderscore l <+: l := by
  induction l using stripTrailingUnderscore.induct with
  | case1 => exact List.nil_prefix
  | case2 =>
      rw [stripTrailingUnderscore]
      simp
  | case3 c hc =>
      rw [stripTrailingUnderscore, if_neg hc]
  | case4 c1 c2 rest ih =>
      rw [stripTrailingUnderscore]
      exact (List.cons_prefix_cons).mpr ⟨rfl, ih⟩

/-- The head of a non-empty prefix is the head of the whole list. -/
theorem head?_of_prefix {l1 l2 : List Char} (h : l1 <+: l2) (c : Char)
    (hc : l1.head? = some c) : l2.head? = some c := by
  obtain ⟨t, rfl⟩ := h
  cases l1 with
  | nil => simp at hc
  | cons a r => simpa using hc

/-- The sanitized name: at most 50 characters, free of invalid characters,
whitespace and uppercase ASCII, with no two adjacent underscores and no
leading underscore. -/
theorem sanitizeFileName_props (name : String) :
    (sanitizeFileName name).data.length ≤ 50 ∧
    (∀ c ∈ (sanitizeFileName name).data,
       invalidChar c = false ∧ c.isWhitespace = false ∧ c ∉ upperChars) ∧
    List.Chain' (fun a b => ¬(a = '_' ∧ b = '_')) (sanitizeFileName name).data ∧
    (∀ c, (sanitizeFileName name).data.head? = some c → c ≠ '_') := by
  have hdata : (sanitizeFileName name).data
      = (((stripTrailingUnderscore (stripLeadingUnderscore
            (collapseUnderscores (wsToUnderscore (replaceInvalid name.data))))).map
          asciiToLower).take 50) := rfl
  refine ⟨?_, ?_, ?_, ?_⟩
  · rw [hdata, List.length_take]
    exact min_le_left _ _
  · rw [hdata]
    intro c hc
    have hc6 := List.take_subset _ _ hc
    obtain ⟨b, hb5, rfl⟩ := List.mem_map.mp hc6
    have hb4 := (stripTrailingUnderscore_prefixOf _).subset hb5
    have hb3 := mem_stripLeadingUnderscore _ b hb4
    have hb2 := mem_collapseUnderscores _ b hb3
    obtain ⟨hbw, hbor⟩ := mem_wsToUnderscore _ b hb2
    have hbinv : invalidChar b = false := by
      rcases hbor with h | h
      · subst h
        decide
      · exact mem_replaceInvalid _ b h
    exact ⟨asciiToLower_invalid b hbinv, asciiToLower_ws b hbw, asciiToLower_not_upper b⟩
  · rw [hdata]
    have h3 := chain'_collapseUnderscores (wsToUnderscore (replaceInvalid name.data))
    have h4 := chain'_stripLeadingUnderscore _ h3
    have h5 := h4.prefix (stripTrailingUnderscore_prefixOf _)
    have hH : ∀ a b : Char, ¬(a = '_' ∧ b = '_') →
        ¬(asciiToLower a = '_' ∧ asciiToLower b = '_') := by
      intro a b hab hlow
      exact hab ⟨(asciiToLower_underscore_iff a).mp hlow.1,
        (asciiToLower_underscore_iff b).mp hlow.2⟩
    have h6 := @List.chain'_map_of_chain' Char Char (fun a b => ¬(a = '_' ∧ b = '_'))
      (fun a b => ¬(a = '_' ∧ b = '_')) asciiToLower hH _ h5
    exact h6.prefix (List.take_prefix _ _)
  · rw [hdata]
    intro c hc
    have h6 := head?_of_prefix (List.take_prefix _ _) c hc
    rw [List.head?_map] at h6
    obtain ⟨b, hb5, hfb⟩ := Option.map_eq_some'.mp h6
    have hb4 := head?_of_prefix (stripTrailingUnderscore_prefixOf _) b hb5
    have hbne := head_stripLeadingUnderscore _
      (chain'_collapseUnderscores (wsToUnderscore (replaceInvalid name.data))) b hb4
    intro hcu
    subst hfb
    exact hbne ((asciiToLower_underscore_iff b).mp hcu)

/-- C10, counterexample: the truncation to 50 characters happens after the
edge underscores are stripped, so for a 49-character name followed by a
space and one more character the output file name keeps a trailing
underscore in its sanitized-name part, contradicting "leading and trailing
underscores stripped" as a property of the result. -/
theorem claim_C10_counterexample :
    generateFileName "FK" "1:2"
        "aaaaaaaaaaaaaaaaaaaaaaaaaaaaaaaaaaaaaaaaaaaaaaaaa b" "png"
      = "FK_1-2_aaaaaaaaaaaaaaaaaaaaaaaaaaaaaaaaaaaaaaaaaaaaaaaaa_.png" ∧
    (sanitizeFileName
        "aaaaaaaaaaaaaaaaaaaaaaaaaaaaaaaaaaaaaaaaaaaaaaaaa b").data.getLast?
      = some '_' :=
  ⟨rfl, rfl⟩

/-- C10 (amended): the artifact name is
`{fileId}_{nodeId with every colon replaced by a hyphen}_{sanitized
name}.{format}`, where the sanitized name is at most 50 characters,
contains no invalid file-system character, no whitespace and no uppercase
ASCII letter, never has two adjacent underscores, and does not start with
an underscore; one leading and one trailing underscore are stripped before
the truncation to 50 characters, so truncation may leave a trailing
underscore. -/
theorem claim_C10_amended_file_name :
    (∀ fileKey nodeId nodeName format : String,
       generateFileName fileKey nodeId nodeName format
         = fileKey ++ "_" ++ colonToHyphen nodeId ++ "_"
             ++ sanitizeFileName nodeName ++ "." ++ format) ∧
    (∀ nodeName : String,
       (sanitizeFileName nodeName).data.length ≤ 50 ∧
       (∀ c ∈ (sanitizeFileName nodeName).data,
          invalidChar c = false ∧ c.isWhitespace = false ∧ c ∉ upperChars) ∧
       List.Chain' (fun a b => ¬(a = '_' ∧ b = '_')) (sanitizeFileName nodeName).data ∧
       (∀ c, (sanitizeFileName nodeName).data.head? = some c → c ≠ '_')) ∧
    (∀ nodeId : String, ∀ c ∈ (colonToHyphen nodeId).data, c ≠ ':') := by
  refine ⟨fun _ _ _ _ => rfl, sanitizeFileName_props, ?_⟩
  intro nodeId c hc
  simp only [colonToHyphen] at hc
  obtain ⟨b, _, rfl⟩ := List.mem_map.mp hc
  by_cases hb : b = ':'
  · rw [if_pos hb]
    decide
  · rw [if_neg hb]
    exact hb

/-- Witness for C10: the sanitized name of `My Button / Primary` is
`my_button_primary`; its first character is not an underscore, its
characters avoid the invalid set, and the node id `12:34` carries no colon
after replacement. -/
theorem claim_C10_amended_file_name_witness :
    (sanitizeFileName "My Button / Primary").data.length ≤ 50 ∧
    (invalidChar 'm' = false ∧ Char.isWhitespace 'm' = false ∧ 'm' ∉ upperChars) ∧
    ('m' : Char) ≠ '_' ∧
    ('1' : Char) ≠ ':' :=
  ⟨(claim_C10_amended_file_name.2.1 "My Button / Primary").1,
   (claim_C10_amended_file_name.2.1 "My Button / Primary").2.1 'm' (by decide),
   (claim_C10_amended_file_name.2.1 "My Button / Primary").2.2.2 'm' rfl,
   claim_C10_amended_file_name.2.2 "12:34" '1' (by decide)⟩
